import Mathlib

/-!
Verification of the OSM changeset viewer's paginated fetch-and-aggregate
pipeline (`fetchChangesets` in `src/App.tsx`) and of the persistence
server's user-upsert route (`POST /api/user` in the express server).

The embedding is shallow: JavaScript strings are Lean `String`s compared
by the same lexicographic code-unit order (`strLt` below, since JS `<` on
strings compares UTF-16 code units and all data here is ASCII); JS numbers
that arise in the loop are either exact integers or `NaN`, modelled as
`Option Int` with `none` for `NaN`; DOM attribute access
(`getAttribute`) returns `Option String` with `none` for `null`.

The browser `Date` round-trip
`new Date(new Date(s).getTime() - 1000).toISOString().replace(/\.\d+Z$/, "Z")`
is modelled at second precision by `parseIso` / `decOne` / `formatTuple`:
for a strict `YYYY-MM-DDTHH:MM:SSZ` string (the format of every upstream
`created_at` value and of every window bound the loop itself produces)
this is exactly calendar decrement by one second; for a string not of
that shape (in particular the empty string) `parseIso` returns `none`,
matching the `RangeError` that `toISOString` throws on an invalid date.
-/

set_option autoImplicit false

namespace Osm

/-- Lexicographic comparison of character lists by code point; this is the
JS `<` on (ASCII) strings. -/
def listLt : List Char → List Char → Bool
  | [], [] => false
  | [], _ :: _ => true
  | _ :: _, [] => false
  | a :: as, b :: bs => decide (a < b) || (a == b && listLt as bs)

/-- JS string comparison `a < b`. -/
def strLt (a b : String) : Bool := listLt a.data b.data

/-- JS string comparison `a <= b` (equivalently, not `b < a`). -/
def strLe (a b : String) : Bool := !(strLt b a)

/-- JS `x || d` applied to a `getAttribute` result: `null` (absent
attribute) and the empty string are both falsy and replaced by the
default. -/
def jsOr (o : Option String) (d : String) : String :=
  match o with
  | some s => if s = "" then d else s
  | none => d

/-- Numeric value of a decimal digit character. -/
def dVal? (c : Char) : Option Nat :=
  match c with
  | '0' => some 0
  | '5' => some 5
  | '1' => some 1
  | '6' => some 6
  | '2' => some 2
  | '7' => some 7
  | '3' => some 3
  | '8' => some 8
  | '4' => some 4
  | '9' => some 9
  | _ => none

/-- Decimal digit character of a value below 10. -/
def dChar : Nat → Char
  | 0 => '0'
  | 5 => '5'
  | 1 => '1'
  | 6 => '6'
  | 2 => '2'
  | 7 => '7'
  | 3 => '3'
  | 8 => '8'
  | 4 => '4'
  | _ => '9'

/-- Accumulate the value of the leading run of decimal digits, stopping at
the first non-digit (the scanning core of JS `parseInt`). -/
def digitsAcc : List Char → Nat → Nat
  | [], acc => acc
  | c :: cs, acc =>
    match dVal? c with
    | some d => digitsAcc cs (acc * 10 + d)
    | none => acc

/-- JS `parseInt(s, 10)`: skip leading whitespace, read an optional sign
and then the longest prefix of decimal digits; `none` models the `NaN`
result when no digit follows. -/
def parseIntJs (s : String) : Option Int :=
  match s.data.dropWhile Char.isWhitespace with
  | '-' :: t =>
    match t with
    | c :: _ => if (dVal? c).isSome then some (-(Int.ofNat (digitsAcc t 0))) else none
    | [] => none
  | '+' :: t =>
    match t with
    | c :: _ => if (dVal? c).isSome then some (Int.ofNat (digitsAcc t 0)) else none
    | [] => none
  | c :: t => if (dVal? c).isSome then some (Int.ofNat (digitsAcc (c :: t) 0)) else none
  | [] => none

/-- JS `+` on the numbers occurring in the loop: integer addition, with
`NaN` (modelled `none`) absorbing. -/
def jsAdd : Option Int → Option Int → Option Int
  | some a, some b => some (a + b)
  | _, _ => none

/-! ### The `Date` model -/

/-- A calendar timestamp at second precision, the content of a
`YYYY-MM-DDTHH:MM:SSZ` string. -/
structure DateTuple where
  y : Nat
  mo : Nat
  d : Nat
  h : Nat
  mi : Nat
  s : Nat
  deriving DecidableEq, Repr

/-- Gregorian leap-year rule. -/
def isLeap (y : Nat) : Bool :=
  decide ((y % 4 = 0 ∧ ¬ y % 100 = 0) ∨ y % 400 = 0)

/-- Number of days in a month of a given year. -/
def isoDaysInMonth (y m : Nat) : Nat :=
  if m = 2 then (if isLeap y then 29 else 28)
  else if m = 4 ∨ m = 6 ∨ m = 9 ∨ m = 11 then 30
  else 31

/-- Field ranges of a well-formed calendar timestamp. -/
def validTuple (t : DateTuple) : Bool :=
  decide (t.y ≤ 9999) && decide (1 ≤ t.mo) && decide (t.mo ≤ 12) &&
  decide (1 ≤ t.d) && decide (t.d ≤ isoDaysInMonth t.y t.mo) &&
  decide (t.h ≤ 23) && decide (t.mi ≤ 59) && decide (t.s ≤ 59)

/-- Calendar decrement by one second: the effect of
`new Date(new Date(s).getTime() - 1000)` on a second-precision timestamp. -/
def decOne (t : DateTuple) : DateTuple :=
  if 1 ≤ t.s then { t with s := t.s - 1 }
  else if 1 ≤ t.mi then { t with mi := t.mi - 1, s := 59 }
  else if 1 ≤ t.h then { t with h := t.h - 1, mi := 59, s := 59 }
  else if 2 ≤ t.d then { t with d := t.d - 1, h := 23, mi := 59, s := 59 }
  else if 2 ≤ t.mo then
    { t with mo := t.mo - 1, d := isoDaysInMonth t.y (t.mo - 1), h := 23, mi := 59, s := 59 }
  else { y := t.y - 1, mo := 12, d := 31, h := 23, mi := 59, s := 59 }

/-- Two-digit zero-padded decimal rendering. -/
def pad2 (n : Nat) : List Char := [dChar (n / 10 % 10), dChar (n % 10)]

/-- Four-digit zero-padded decimal rendering. -/
def pad4 (n : Nat) : List Char :=
  [dChar (n / 1000 % 10), dChar (n / 100 % 10), dChar (n / 10 % 10), dChar (n % 10)]

/-- Character list of the `toISOString` rendering (with the fractional
part already stripped by the `.replace(/\.\d+Z$/, "Z")` in the source). -/
def formatData (t : DateTuple) : List Char :=
  pad4 t.y ++ '-' :: (pad2 t.mo ++ '-' :: (pad2 t.d ++ 'T' ::
    (pad2 t.h ++ ':' :: (pad2 t.mi ++ ':' :: (pad2 t.s ++ ['Z'])))))

/-- The `YYYY-MM-DDTHH:MM:SSZ` rendering of a timestamp. -/
def formatTuple (t : DateTuple) : String := ⟨formatData t⟩

/-- Strict parse of a `YYYY-MM-DDTHH:MM:SSZ` string; `none` models an
invalid `Date` (on which `toISOString` throws). -/
def parseIso (str : String) : Option DateTuple :=
  match str.data with
  | [y1, y2, y3, y4, '-', o1, o2, '-', d1, d2, 'T',
     h1, h2, ':', i1, i2, ':', s1, s2, 'Z'] =>
    match dVal? y1, dVal? y2, dVal? y3, dVal? y4, dVal? o1, dVal? o2, dVal? d1,
          dVal? d2, dVal? h1, dVal? h2, dVal? i1, dVal? i2, dVal? s1, dVal? s2 with
    | some a1, some a2, some a3, some a4, some b1, some b2, some c1,
      some c2, some e1, some e2, some f1, some f2, some g1, some g2 =>
      let t : DateTuple :=
        { y := a1 * 1000 + a2 * 100 + a3 * 10 + a4
          mo := b1 * 10 + b2
          d := c1 * 10 + c2
          h := e1 * 10 + e2
          mi := f1 * 10 + f2
          s := g1 * 10 + g2 }
      if validTuple t then some t else none
    | _, _, _, _, _, _, _, _, _, _, _, _, _, _ => none
  | _ => none

/-! ### Changeset records and the accumulator -/

/-- One `tag` child element: its `k` and `v` attributes (`none` models a
missing attribute). -/
structure TagElem where
  k : Option String
  v : Option String
  deriving DecidableEq, Repr

/-- One `changeset` element of a parsed page: the attributes the loop
reads, plus the `tag` children. -/
structure ChangesetElem where
  id : Option String
  created_at : Option String
  closed_at : Option String
  changes_count : Option String
  min_lon : Option String
  min_lat : Option String
  max_lon : Option String
  max_lat : Option String
  tags : List TagElem
  deriving DecidableEq, Repr

/-- The `created` local of the loop body:
`cs.getAttribute("created_at") || ""`. -/
def createdOf (cs : ChangesetElem) : String := jsOr cs.created_at ""

/-- The amount added to `edits` for one record:
`parseInt(cs.getAttribute("changes_count") || "0", 10)`. -/
def codeContribution (cs : ChangesetElem) : Option Int :=
  parseIntJs (jsOr cs.changes_count "0")

/-- JS `s.split(sep)[0]`: the prefix of `s` before the first occurrence of
the (single-character) separator. -/
def splitHead (s : String) (sep : Char) : String :=
  ⟨s.data.takeWhile (fun c => c ≠ sep)⟩

/-- The histogram key of one record:
`(tag?.getAttribute("v") || "unknown").split("/")[0].split(" ")[0]`
where `tag` is the first `tag` child with `k === "created_by"`. -/
def editorKey (cs : ChangesetElem) : String :=
  let tag := cs.tags.find? (fun t => t.k == some "created_by")
  splitHead (splitHead (jsOr (tag.bind TagElem.v) "unknown") '/') ' '

/-- The CSV line pushed for one record. -/
def csvRow (cs : ChangesetElem) : String :=
  String.intercalate ","
    [jsOr cs.id "", createdOf cs, jsOr cs.closed_at "", jsOr cs.changes_count "0",
     jsOr cs.min_lon "", jsOr cs.min_lat "", jsOr cs.max_lon "", jsOr cs.max_lat "",
     editorKey cs, ""]

/-- `Set.add` on the insertion-ordered model of the JS `Set` of day
strings. -/
def setAdd (l : List String) (x : String) : List String :=
  if x ∈ l then l else l ++ [x]

/-- `editors[editor] = (editors[editor] || 0) + 1` on the association-list
model of the JS record. -/
def bump : List (String × Nat) → String → List (String × Nat)
  | [], k => [(k, 1)]
  | (k', v) :: t, k => if k' = k then (k', v + 1) :: t else (k', v) :: bump t k

/-- Value of a key in the histogram (`editors[k] || 0`). -/
def lookupCount : List (String × Nat) → String → Nat
  | [], _ => 0
  | (k', v) :: t, k => if k' = k then v else lookupCount t k

/-- Sum of all histogram values. -/
def histSum (l : List (String × Nat)) : Nat := (l.map Prod.snd).sum

/-- The mutable accumulator of `fetchChangesets`: `edits`, `daySet`,
`editors` and `csvLines`. -/
structure LoopState where
  edits : Option Int
  daySet : List String
  editors : List (String × Nat)
  csvLines : List String
  deriving DecidableEq, Repr

/-- The CSV header line that `csvLines` starts with. -/
def csvHeader : String :=
  "id,created_at,closed_at,changes_count,min_lon,min_lat,max_lon,max_lat,editor,comment"

/-- Accumulator at the start of a fetch. -/
def initState : LoopState :=
  { edits := some 0, daySet := [], editors := [], csvLines := [csvHeader] }

/-- Body of the `sets.forEach` loop, restricted to its effect on the
accumulator. -/
def stateStep (st : LoopState) (cs : ChangesetElem) : LoopState :=
  { edits := jsAdd st.edits (codeContribution cs)
    daySet := setAdd st.daySet ⟨(createdOf cs).data.take 10⟩
    editors := bump st.editors (editorKey cs)
    csvLines := st.csvLines ++ [csvRow cs] }

/-- Body of the `sets.forEach` loop including the running
`if (created < earliest) earliest = created`. -/
def recordStep (p : LoopState × String) (cs : ChangesetElem) : LoopState × String :=
  (stateStep p.1 cs, if strLt (createdOf cs) p.2 then createdOf cs else p.2)

/-- Processing of one page's record list: the `sets.forEach(...)` with
`earliest` initialized to `windowEnd`. -/
def processPage (st : LoopState) (windowEnd : String) (l : List ChangesetElem) :
    LoopState × String :=
  l.foldl recordStep (st, windowEnd)

/-- Running minimum used by the loop: fold of
`if (created < earliest) earliest = created` over the page's `created`
values, starting from `windowEnd`. -/
def minFold (w : String) : List String → String
  | [] => w
  | c :: cs => minFold (if strLt c w then c else w) cs

/-! ### One upstream response and the pagination loop -/

/-- One upstream HTTP response as the loop observes it: the status code,
whether the raw text contains the substring `"<changeset"` (the only
inspection of the raw body the code performs), whether the body is
well-formed XML, and the `changeset` elements of the document produced by
`DOMParser`.  `DOMParser.parseFromString` never throws: on malformed
input it returns an error document, so the code never branches on
`wellFormed` — the field only records the property the spec talks about.
For a well-formed body, `elements ≠ []` forces `hasSub = true` (the
serialization of a `<changeset …>` element contains the substring), but
`hasSub = true` with `elements = []` is realizable even for well-formed
bodies, e.g. `<osm><!-- <changeset --></osm>`. -/
structure Page where
  status : Nat
  hasSub : Bool
  wellFormed : Bool
  elements : List ChangesetElem
  deriving DecidableEq, Repr

/-- The exceptions `fetchChangesets` can throw: `Error("Wrong username")`
on a 404, `Error("HTTP <status>")` on another non-ok status,
`Error('User "<user>" has no contributions yet')` on a first page without
`"<changeset"`, and the `RangeError` of `toISOString` on an invalid
date. -/
inductive JsError where
  | wrongUsername
  | httpError (status : Nat)
  | noContributions
  | invalidDate
  deriving DecidableEq, Repr

/-- Outcome of one iteration of the `while (true)` loop on one
response. -/
inductive StepResult where
  | fail (e : JsError)
  | finished
  | next (st : LoopState) (windowEnd : String)
  deriving DecidableEq, Repr

/-- One iteration of the `while (true)` loop body applied to one
response, with the current accumulator, window bound and `firstLoop`
flag. -/
def stepPage (st : LoopState) (windowEnd : String) (firstLoop : Bool) (p : Page) :
    StepResult :=
  if p.status = 404 then .fail .wrongUsername
  else if ¬ (200 ≤ p.status ∧ p.status ≤ 299) then .fail (.httpError p.status)
  else if firstLoop && !p.hasSub then .fail .noContributions
  else if !p.hasSub then .finished
  else if p.elements.isEmpty then .finished
  else
    let r := processPage st windowEnd p.elements
    match parseIso r.2 with
    | none => .fail .invalidDate
    | some t => .next r.1 (formatTuple (decOne t))

/-- Result of running the loop against a finite list of successive
upstream responses.  `done` is the normal `break` out of the loop with
the final accumulator and window; `error` is the `catch` path (the
partial accumulator is discarded, as in the source); `needsMore` means
the provided responses were exhausted while the loop was about to issue
a further fetch — it carries the loop state at that point, so "the loop
does not fetch a further page" is expressible as the result not being
`needsMore`. -/
inductive RunResult where
  | done (st : LoopState) (windowEnd : String)
  | error (e : JsError)
  | needsMore (st : LoopState) (windowEnd : String) (firstLoop : Bool)
  deriving DecidableEq, Repr

/-- Is the run a normal completion? -/
def RunResult.isDone : RunResult → Bool
  | .done _ _ => true
  | _ => false

/-- Did the run exhaust the supplied responses and ask for another
page? -/
def RunResult.isNeedsMore : RunResult → Bool
  | .needsMore _ _ _ => true
  | _ => false

/-- The `while (true)` loop of `fetchChangesets`, run against a list of
successive upstream responses. -/
def runPages (st : LoopState) (windowEnd : String) (firstLoop : Bool) :
    List Page → RunResult
  | [] => .needsMore st windowEnd firstLoop
  | p :: rest =>
    match stepPage st windowEnd firstLoop p with
    | .fail e => .error e
    | .finished => .done st windowEnd
    | .next st2 w2 => runPages st2 w2 false rest

/-! ### The upstream as a finite dataset -/

/-- The fixed lower bound of every query window (2004-01-01, the OSM
founding date). -/
def EPOCH : String := "2004-01-01T00:00:00Z"

/-- Does a record fall in the query window `[EPOCH, windowEnd]`?  The
upstream `time=<EPOCH>,<windowEnd>` filter on `created_at`. -/
def inWindow (windowEnd : String) (cs : ChangesetElem) : Bool :=
  strLe EPOCH (createdOf cs) && strLe (createdOf cs) windowEnd

/-- Modelled from the spec: the upstream changeset-listing endpoint
(`GET …?display_name=…&time=EPOCH,windowEnd&limit=100`), an external
service.  For a finite dataset of records it returns a well-formed page
with up to 100 of the records whose `created_at` lies in
`[EPOCH, windowEnd]`, and the body contains `"<changeset"` exactly when
at least one record is returned. -/
def serve (dataset : List ChangesetElem) (windowEnd : String) : Page :=
  let els := (dataset.filter (inWindow windowEnd)).take 100
  { status := 200, hasSub := !els.isEmpty, wellFormed := true, elements := els }

/-- The `while (true)` loop run against a finite upstream dataset, with
explicit fuel: each unit of fuel allows one page fetch, and running out
of fuel yields `needsMore`.  Termination of the loop is the statement
that `dataset.length + 1` fuel never yields `needsMore`. -/
def runDataset (dataset : List ChangesetElem) :
    Nat → LoopState → String → Bool → RunResult
  | 0, st, w, fl => .needsMore st w fl
  | fuel + 1, st, w, fl =>
    match stepPage st w fl (serve dataset w) with
    | .fail e => .error e
    | .finished => .done st w
    | .next st2 w2 => runDataset dataset fuel st2 w2 false

/-! ### The persistence server's `POST /api/user` route -/

/-- Server-side state: the `stats` table rows (unique on `user`) and the
CSV files under `changesets/`, keyed by file name. -/
structure ServerState where
  stats : List (String × Int)
  files : List (String × String)
  deriving DecidableEq, Repr

/-- Observable outcome of the route: the 400 on missing fields, the 500
on a DB error, the thrown exception when `fs.writeFileSync` fails (no
response is sent and no rollback happens), or the success JSON. -/
inductive PostOutcome where
  | badRequest
  | dbError
  | writeFailed
  | success
  deriving DecidableEq, Repr

/-- `INSERT INTO stats (user, edits) VALUES (?, ?) ON CONFLICT(user) DO
UPDATE SET edits = excluded.edits` on the list model of the table. -/
def upsertStat : List (String × Int) → String → Int → List (String × Int)
  | [], u, e => [(u, e)]
  | (u', e') :: t, u, e =>
    if u' = u then (u', e) :: t else (u', e') :: upsertStat t u e

/-- `fs.writeFileSync` on the file-map model (create or overwrite). -/
def writeFileModel : List (String × String) → String → String → List (String × String)
  | [], p, c => [(p, c)]
  | (p', c') :: t, p, c =>
    if p' = p then (p', c) :: t else (p', c') :: writeFileModel t p c

/-- The `POST /api/user` handler, over the destructured body
`const { username, edits, csv } = req.body` (`edits = none` models a
missing or `null` field, matching JS `edits == null`; an empty or missing
username is falsy).  It validates the body, upserts the user row, and
only then writes the CSV export file; `dbOk` and `writeOk` model whether
the DB statement and the file write succeed.  When the file write throws,
the row upsert has already been applied and is not rolled back. -/
def postApiUser (st : ServerState) (username : String) (edits : Option Int)
    (csv : String) (dbOk writeOk : Bool) : ServerState × PostOutcome :=
  if username = "" then (st, .badRequest)
  else
    match edits with
    | none => (st, .badRequest)
    | some e =>
      if ¬ dbOk then (st, .dbError)
      else
        let st1 : ServerState := { st with stats := upsertStat st.stats username e }
        if writeOk then
          ({ st1 with files := writeFileModel st1.files (username ++ ".csv") csv },
           .success)
        else (st1, .writeFailed)

/-! ### Spec-side definitions (for refinement comparison only) -/

/-- Spec-side reading of one record's `changesCount` (§3 of the spec): a
non-negative integer, "defaults to 0 if absent/unparseable". -/
def specContribution (cs : ChangesetElem) : Int :=
  match cs.changes_count with
  | none => 0
  | some s =>
    match parseIntJs s with
    | none => 0
    | some v => v

/-- Spec-side `totalEdits`: the sum of `changesCount` across a record
sequence, with absent/unparseable values contributing 0. -/
def specTotalEdits (l : List ChangesetElem) : Int :=
  (l.map specContribution).sum

/-! ## Lemmas about the string order -/

theorem listLt_irrefl (l : List Char) : listLt l l = false := by
  induction l with
  | nil => rfl
  | cons a as ih => simp [listLt, ih]

theorem listLt_trans {a b c : List Char} (h1 : listLt a b = true)
    (h2 : listLt b c = true) : listLt a c = true := by
  induction a generalizing b c with
  | nil =>
    cases c with
    | nil =>
      cases b with
      | nil => exact h1
      | cons x xs => simp [listLt] at h2
    | cons y ys => rfl
  | cons x xs ih =>
    cases b with
    | nil => simp [listLt] at h1
    | cons y ys =>
      cases c with
      | nil => simp [listLt] at h2
      | cons z zs =>
        simp only [listLt, Bool.or_eq_true, decide_eq_true_eq, Bool.and_eq_true,
          beq_iff_eq] at h1 h2 ⊢
        rcases h1 with h1 | ⟨rfl, h1⟩
        · rcases h2 with h2 | ⟨rfl, h2⟩
          · exact Or.inl (lt_trans h1 h2)
          · exact Or.inl h1
        · rcases h2 with h2 | ⟨rfl, h2⟩
          · exact Or.inl h2
          · exact Or.inr ⟨rfl, ih h1 h2⟩

theorem listLt_total {a b : List Char} (h1 : listLt a b = false)
    (h2 : listLt b a = false) : a = b := by
  induction a generalizing b with
  | nil =>
    cases b with
    | nil => rfl
    | cons y ys => simp [listLt] at h1
  | cons x xs ih =>
    cases b with
    | nil => simp [listLt] at h2
    | cons y ys =>
      simp only [listLt, Bool.or_eq_false_iff, decide_eq_false_iff_not,
        Bool.and_eq_false_iff, beq_eq_false_iff_ne, ne_eq] at h1 h2
      obtain ⟨hxy, h1'⟩ := h1
      obtain ⟨hyx, h2'⟩ := h2
      have hxy' : x = y := le_antisymm (not_lt.mp hyx) (not_lt.mp hxy)
      subst hxy'
      rcases h1' with h | h1'
      · exact absurd rfl h
      · rcases h2' with h | h2'
        · exact absurd rfl h
        · rw [ih h1' h2']

theorem listLt_asymm {a b : List Char} (h1 : listLt a b = true) :
    listLt b a = false := by
  by_contra h
  have h2 := eq_true_of_ne_false h
  have h3 := listLt_trans h1 h2
  rw [listLt_irrefl] at h3
  exact Bool.false_ne_true h3

theorem strLt_irrefl (s : String) : strLt s s = false := listLt_irrefl s.data

theorem strLt_trans {a b c : String} (h1 : strLt a b = true)
    (h2 : strLt b c = true) : strLt a c = true := listLt_trans h1 h2

theorem strEq_of_not_lt {a b : String} (h1 : strLt a b = false)
    (h2 : strLt b a = false) : a = b := by
  cases a with
  | mk da =>
    cases b with
    | mk db => exact congrArg String.mk (listLt_total h1 h2)

theorem strLt_asymm {a b : String} (h : strLt a b = true) : strLt b a = false :=
  listLt_asymm h

theorem strLe_refl (s : String) : strLe s s = true := by
  simp [strLe, strLt_irrefl]

theorem strLe_of_lt {a b : String} (h : strLt a b = true) : strLe a b = true := by
  simp [strLe, strLt_asymm h]

theorem strLt_of_lt_of_le {a b c : String} (h1 : strLt a b = true)
    (h2 : strLe b c = true) : strLt a c = true := by
  simp only [strLe, Bool.not_eq_true'] at h2
  cases hbc : strLt b c with
  | true => exact strLt_trans h1 hbc
  | false => rwa [strEq_of_not_lt hbc h2] at h1

theorem strLe_trans {a b c : String} (h1 : strLe a b = true)
    (h2 : strLe b c = true) : strLe a c = true := by
  simp only [strLe, Bool.not_eq_true'] at h1 h2 ⊢
  cases hca : strLt c a with
  | false => rfl
  | true =>
    cases hbc : strLt b c with
    | true =>
      have hba : strLt b a = true := strLt_trans hbc hca
      rw [hba] at h1
      exact h1
    | false =>
      have hbceq : b = c := strEq_of_not_lt hbc h2
      subst hbceq
      rw [hca] at h1
      exact h1

theorem strEq_empty_of_le {x : String} (h : strLe x "" = true) : x = "" := by
  simp only [strLe, Bool.not_eq_true'] at h
  cases x with
  | mk dx =>
    cases dx with
    | nil => rfl
    | cons c cs => simp [strLt, listLt] at h

/-! ## Lemmas about the running minimum -/

theorem minFold_mem (w : String) (l : List String) :
    minFold w l = w ∨ minFold w l ∈ l := by
  induction l generalizing w with
  | nil => exact Or.inl rfl
  | cons c cs ih =>
    simp only [minFold]
    by_cases h : strLt c w = true
    · rw [if_pos h]
      rcases ih c with h' | h'
      · exact Or.inr (by simp [h'])
      · exact Or.inr (by simp [h'])
    · rw [if_neg h]
      rcases ih w with h' | h'
      · exact Or.inl h'
      · exact Or.inr (by simp [h'])

theorem minFold_le_start (w : String) (l : List String) :
    strLe (minFold w l) w = true := by
  induction l generalizing w with
  | nil => exact strLe_refl w
  | cons c cs ih =>
    simp only [minFold]
    by_cases h : strLt c w = true
    · rw [if_pos h]
      exact strLe_trans (ih c) (strLe_of_lt h)
    · rw [if_neg h]
      exact ih w

theorem minFold_le_mem (w : String) (l : List String) {c : String} (hc : c ∈ l) :
    strLe (minFold w l) c = true := by
  induction l generalizing w with
  | nil => cases hc
  | cons x xs ih =>
    simp only [minFold]
    rcases List.mem_cons.mp hc with rfl | hc'
    · by_cases h : strLt c w = true
      · rw [if_pos h]
        exact minFold_le_start c xs
      · have h' : strLt c w = false := Bool.eq_false_iff.mpr h
        rw [if_neg h]
        exact strLe_trans (minFold_le_start w xs) (by simp [strLe, h'])
    · by_cases h : strLt x w = true
      · rw [if_pos h]; exact ih x hc'
      · rw [if_neg h]; exact ih w hc'

theorem minFold_mem_of_all_le (w : String) {l : List String} (hne : l ≠ [])
    (hall : ∀ c ∈ l, strLe c w = true) : minFold w l ∈ l := by
  cases l with
  | nil => exact absurd rfl hne
  | cons c cs =>
    have hc : strLe c w = true := hall c (by simp)
    simp only [minFold]
    by_cases h : strLt c w = true
    · rw [if_pos h]
      rcases minFold_mem c cs with h' | h'
      · simp [h']
      · simp [h']
    · have hf : strLt c w = false := Bool.eq_false_iff.mpr h
      rw [if_neg h]
      simp only [strLe, Bool.not_eq_true'] at hc
      have hcw : c = w := strEq_of_not_lt hf hc
      subst hcw
      rcases minFold_mem c cs with h' | h'
      · simp [h']
      · simp [h']

theorem minFold_eq_empty (w : String) {l : List String} (h : "" ∈ l) :
    minFold w l = "" :=
  strEq_empty_of_le (minFold_le_mem w l h)

/-! ## Lemmas about digits and timestamp rendering -/

theorem dVal?_dChar {n : Nat} (h : n < 10) : dVal? (dChar n) = some n := by
  interval_cases n <;> rfl

theorem dVal?_dChar_mod (n : Nat) : dVal? (dChar (n % 10)) = some (n % 10) :=
  dVal?_dChar (Nat.mod_lt _ (by norm_num))

theorem dVal?_some {c : Char} {v : Nat} (h : dVal? c = some v) :
    v < 10 ∧ c = dChar v := by
  unfold dVal? at h
  split at h <;> simp_all <;> (subst h; decide)

theorem dChar_lt {a b : Nat} (hab : a < b) (hb : b ≤ 9) : dChar a < dChar b := by
  have ha : a ≤ 8 := by omega
  interval_cases a <;> interval_cases b <;> decide

theorem listLt_append_left (p : List Char) {u v : List Char}
    (h : listLt u v = true) : listLt (p ++ u) (p ++ v) = true := by
  induction p with
  | nil => exact h
  | cons c cp ih => simp [listLt, ih, lt_irrefl]

theorem listLt_cons (c : Char) {u v : List Char} (h : listLt u v = true) :
    listLt (c :: u) (c :: v) = true := by
  simp [listLt, h, lt_irrefl]

theorem pad2_append_lt (a b : Nat) (hab : a < b) (hb : b ≤ 99) (u v : List Char) :
    listLt (pad2 a ++ u) (pad2 b ++ v) = true := by
  by_cases h10 : a / 10 < b / 10
  · have h1 : dChar (a / 10 % 10) < dChar (b / 10 % 10) := by
      rw [Nat.mod_eq_of_lt (by omega), Nat.mod_eq_of_lt (by omega)]
      exact dChar_lt h10 (by omega)
    simp [pad2, listLt, h1]
  · have hdiv : a / 10 = b / 10 := by omega
    have hmod : a % 10 < b % 10 := by omega
    have h2 : dChar (a % 10) < dChar (b % 10) := dChar_lt hmod (by omega)
    simp [pad2, listLt, hdiv, h2, lt_irrefl]

theorem pad4_eq (x : Nat) : pad4 x = pad2 (x / 100) ++ pad2 (x % 100) := by
  have e1 : x / 100 / 10 % 10 = x / 1000 % 10 := by omega
  have e3 : x % 100 / 10 % 10 = x / 10 % 10 := by omega
  have e4 : x % 100 % 10 = x % 10 := by omega
  simp [pad4, pad2, e1, e3, e4]

theorem pad4_append_lt (a b : Nat) (hab : a < b) (hb : b ≤ 9999) (u v : List Char) :
    listLt (pad4 a ++ u) (pad4 b ++ v) = true := by
  rw [pad4_eq a, pad4_eq b, List.append_assoc, List.append_assoc]
  by_cases h : a / 100 < b / 100
  · exact pad2_append_lt _ _ h (by omega) _ _
  · have hdiv : a / 100 = b / 100 := by omega
    rw [hdiv]
    apply listLt_append_left
    exact pad2_append_lt _ _ (by omega) (by omega) _ _


/-! ## Lemmas about the timestamp model -/

theorem isoDaysInMonth_pos (y m : Nat) : 1 ≤ isoDaysInMonth y m := by
  unfold isoDaysInMonth
  split
  · split <;> omega
  · split <;> omega

theorem isoDaysInMonth_le (y m : Nat) : isoDaysInMonth y m ≤ 31 := by
  unfold isoDaysInMonth
  split
  · split <;> omega
  · split <;> omega

theorem isoDaysInMonth_12 (y : Nat) : isoDaysInMonth y 12 = 31 := rfl

theorem validTuple_bounds {t : DateTuple} (h : validTuple t = true) :
    t.y ≤ 9999 ∧ 1 ≤ t.mo ∧ t.mo ≤ 12 ∧ 1 ≤ t.d ∧
    t.d ≤ isoDaysInMonth t.y t.mo ∧ t.h ≤ 23 ∧ t.mi ≤ 59 ∧ t.s ≤ 59 := by
  simp only [validTuple, Bool.and_eq_true, decide_eq_true_eq] at h
  exact ⟨h.1.1.1.1.1.1.1, h.1.1.1.1.1.1.2, h.1.1.1.1.1.2, h.1.1.1.1.2,
    h.1.1.1.2, h.1.1.2, h.1.2, h.2⟩

theorem validTuple_intro {t : DateTuple} (h1 : t.y ≤ 9999) (h2 : 1 ≤ t.mo)
    (h3 : t.mo ≤ 12) (h4 : 1 ≤ t.d) (h5 : t.d ≤ isoDaysInMonth t.y t.mo)
    (h6 : t.h ≤ 23) (h7 : t.mi ≤ 59) (h8 : t.s ≤ 59) : validTuple t = true := by
  simp only [validTuple, Bool.and_eq_true, decide_eq_true_eq]
  exact ⟨⟨⟨⟨⟨⟨⟨h1, h2⟩, h3⟩, h4⟩, h5⟩, h6⟩, h7⟩, h8⟩

theorem validTuple_mk (y mo d h mi s : Nat) (h1 : y ≤ 9999) (h2 : 1 ≤ mo)
    (h3 : mo ≤ 12) (h4 : 1 ≤ d) (h5 : d ≤ isoDaysInMonth y mo) (h6 : h ≤ 23)
    (h7 : mi ≤ 59) (h8 : s ≤ 59) :
    validTuple ⟨y, mo, d, h, mi, s⟩ = true :=
  validTuple_intro h1 h2 h3 h4 h5 h6 h7 h8

theorem formatData_eq (t : DateTuple) :
    formatData t = [dChar (t.y / 1000 % 10), dChar (t.y / 100 % 10),
      dChar (t.y / 10 % 10), dChar (t.y % 10), '-', dChar (t.mo / 10 % 10),
      dChar (t.mo % 10), '-', dChar (t.d / 10 % 10), dChar (t.d % 10), 'T',
      dChar (t.h / 10 % 10), dChar (t.h % 10), ':', dChar (t.mi / 10 % 10),
      dChar (t.mi % 10), ':', dChar (t.s / 10 % 10), dChar (t.s % 10), 'Z'] := by
  simp [formatData, pad4, pad2]

theorem parseIso_format {t : DateTuple} (h : validTuple t = true) :
    parseIso (formatTuple t) = some t := by
  obtain ⟨h1, h2, h3, h4, h5, h6, h7, h8⟩ := validTuple_bounds h
  unfold parseIso
  rw [show (formatTuple t).data = formatData t from rfl, formatData_eq t]
  simp only [dVal?_dChar_mod]
  have hy : t.y / 1000 % 10 * 1000 + t.y / 100 % 10 * 100 + t.y / 10 % 10 * 10 + t.y % 10 = t.y := by
    omega
  have hmo : t.mo / 10 % 10 * 10 + t.mo % 10 = t.mo := by omega
  have hd : t.d / 10 % 10 * 10 + t.d % 10 = t.d := by
    have := isoDaysInMonth_le t.y t.mo
    omega
  have hh : t.h / 10 % 10 * 10 + t.h % 10 = t.h := by omega
  have hmi : t.mi / 10 % 10 * 10 + t.mi % 10 = t.mi := by omega
  have hs : t.s / 10 % 10 * 10 + t.s % 10 = t.s := by omega
  simp only [hy, hmo, hd, hh, hmi, hs]
  have ht : ({ y := t.y, mo := t.mo, d := t.d, h := t.h, mi := t.mi, s := t.s } : DateTuple) = t :=
    rfl
  rw [ht, h]
  rfl

theorem parseIso_inv {str : String} {t : DateTuple} (h : parseIso str = some t) :
    formatTuple t = str ∧ validTuple t = true := by
  obtain ⟨sdata⟩ := str
  unfold parseIso at h
  split at h
  · rename_i p1 p2 p3 p4 p5 p6 p7 p8 p9 p10 p11 p12 p13 p14 heq
    split at h
    · rename_i a1 a2 a3 a4 a5 a6 a7 a8 a9 a10 a11 a12 a13 a14
        q1 q2 q3 q4 q5 q6 q7 q8 q9 q10 q11 q12 q13 q14
      dsimp only at h
      split at h
      · rename_i hvalid
        injection h with ht
        subst ht
        refine ⟨?_, hvalid⟩
        obtain ⟨hb1, hc1⟩ := dVal?_some q1
        obtain ⟨hb2, hc2⟩ := dVal?_some q2
        obtain ⟨hb3, hc3⟩ := dVal?_some q3
        obtain ⟨hb4, hc4⟩ := dVal?_some q4
        obtain ⟨hb5, hc5⟩ := dVal?_some q5
        obtain ⟨hb6, hc6⟩ := dVal?_some q6
        obtain ⟨hb7, hc7⟩ := dVal?_some q7
        obtain ⟨hb8, hc8⟩ := dVal?_some q8
        obtain ⟨hb9, hc9⟩ := dVal?_some q9
        obtain ⟨hb10, hc10⟩ := dVal?_some q10
        obtain ⟨hb11, hc11⟩ := dVal?_some q11
        obtain ⟨hb12, hc12⟩ := dVal?_some q12
        obtain ⟨hb13, hc13⟩ := dVal?_some q13
        obtain ⟨hb14, hc14⟩ := dVal?_some q14
        subst hc1 hc2 hc3 hc4 hc5 hc6 hc7 hc8 hc9 hc10 hc11 hc12 hc13 hc14
        subst heq
        apply congrArg String.mk
        rw [formatData_eq]
        have E1 : (a1 * 1000 + a2 * 100 + a3 * 10 + a4) / 1000 % 10 = a1 := by omega
        have E2 : (a1 * 1000 + a2 * 100 + a3 * 10 + a4) / 100 % 10 = a2 := by omega
        have E3 : (a1 * 1000 + a2 * 100 + a3 * 10 + a4) / 10 % 10 = a3 := by omega
        have E4 : (a1 * 1000 + a2 * 100 + a3 * 10 + a4) % 10 = a4 := by omega
        have E5 : (a5 * 10 + a6) / 10 % 10 = a5 := by omega
        have E6 : (a5 * 10 + a6) % 10 = a6 := by omega
        have E7 : (a7 * 10 + a8) / 10 % 10 = a7 := by omega
        have E8 : (a7 * 10 + a8) % 10 = a8 := by omega
        have E9 : (a9 * 10 + a10) / 10 % 10 = a9 := by omega
        have E10 : (a9 * 10 + a10) % 10 = a10 := by omega
        have E11 : (a11 * 10 + a12) / 10 % 10 = a11 := by omega
        have E12 : (a11 * 10 + a12) % 10 = a12 := by omega
        have E13 : (a13 * 10 + a14) / 10 % 10 = a13 := by omega
        have E14 : (a13 * 10 + a14) % 10 = a14 := by omega
        simp only [E1, E2, E3, E4, E5, E6, E7, E8, E9, E10, E11, E12, E13, E14]
      · exact absurd h (by simp)
    · exact absurd h (by simp)
  · exact absurd h (by simp)

theorem decOne_valid {t : DateTuple} (h : validTuple t = true) :
    validTuple (decOne t) = true := by
  obtain ⟨h1, h2, h3, h4, h5, h6, h7, h8⟩ := validTuple_bounds h
  have P1 := isoDaysInMonth_pos t.y (t.mo - 1)
  have P2 := isoDaysInMonth_12 (t.y - 1)
  unfold decOne
  split
  · exact validTuple_mk t.y t.mo t.d t.h t.mi (t.s - 1) (by omega) (by omega)
      (by omega) (by omega) (by omega) (by omega) (by omega) (by omega)
  · split
    · exact validTuple_mk t.y t.mo t.d t.h (t.mi - 1) 59 (by omega) (by omega)
        (by omega) (by omega) (by omega) (by omega) (by omega) (by omega)
    · split
      · exact validTuple_mk t.y t.mo t.d (t.h - 1) 59 59 (by omega) (by omega)
          (by omega) (by omega) (by omega) (by omega) (by omega) (by omega)
      · split
        · exact validTuple_mk t.y t.mo (t.d - 1) 23 59 59 (by omega) (by omega)
            (by omega) (by omega) (by omega) (by omega) (by omega) (by omega)
        · split
          · exact validTuple_mk t.y (t.mo - 1) (isoDaysInMonth t.y (t.mo - 1)) 23 59 59
              (by omega) (by omega) (by omega) (by omega) (by omega) (by omega)
              (by omega) (by omega)
          · exact validTuple_mk (t.y - 1) 12 31 23 59 59 (by omega) (by omega)
              (by omega) (by omega) (by omega) (by omega) (by omega) (by omega)

theorem formatTuple_decOne_lt {t : DateTuple} (hv : validTuple t = true)
    (hy : 1 ≤ t.y) : strLt (formatTuple (decOne t)) (formatTuple t) = true := by
  obtain ⟨h1, h2, h3, h4, h5, h6, h7, h8⟩ := validTuple_bounds hv
  have hd31 : t.d ≤ 31 := le_trans h5 (isoDaysInMonth_le t.y t.mo)
  show listLt (formatData (decOne t)) (formatData t) = true
  unfold decOne
  split
  · rename_i hc
    unfold formatData
    apply listLt_append_left
    apply listLt_cons
    apply listLt_append_left
    apply listLt_cons
    apply listLt_append_left
    apply listLt_cons
    apply listLt_append_left
    apply listLt_cons
    apply listLt_append_left
    apply listLt_cons
    exact pad2_append_lt (t.s - 1) t.s (by omega) (by omega) _ _
  · split
    · rename_i hc1 hc2
      unfold formatData
      apply listLt_append_left
      apply listLt_cons
      apply listLt_append_left
      apply listLt_cons
      apply listLt_append_left
      apply listLt_cons
      apply listLt_append_left
      apply listLt_cons
      exact pad2_append_lt (t.mi - 1) t.mi (by omega) (by omega) _ _
    · split
      · rename_i hc1 hc2 hc3
        unfold formatData
        apply listLt_append_left
        apply listLt_cons
        apply listLt_append_left
        apply listLt_cons
        apply listLt_append_left
        apply listLt_cons
        exact pad2_append_lt (t.h - 1) t.h (by omega) (by omega) _ _
      · split
        · rename_i hc1 hc2 hc3 hc4
          unfold formatData
          apply listLt_append_left
          apply listLt_cons
          apply listLt_append_left
          apply listLt_cons
          exact pad2_append_lt (t.d - 1) t.d (by omega) (by omega) _ _
        · split
          · rename_i hc1 hc2 hc3 hc4 hc5
            unfold formatData
            apply listLt_append_left
            apply listLt_cons
            exact pad2_append_lt (t.mo - 1) t.mo (by omega) (by omega) _ _
          · rename_i hc1 hc2 hc3 hc4 hc5
            unfold formatData
            exact pad4_append_lt (t.y - 1) t.y (by omega) (by omega) _ _


/-! ## Lemmas about the accumulator fold -/

theorem processPage_fst (st : LoopState) (w : String) (l : List ChangesetElem) :
    (processPage st w l).1 = l.foldl stateStep st := by
  induction l generalizing st w with
  | nil => rfl
  | cons c cs ih =>
    simp only [processPage, List.foldl_cons, recordStep]
    exact ih _ _

theorem processPage_snd (st : LoopState) (w : String) (l : List ChangesetElem) :
    (processPage st w l).2 = minFold w (l.map createdOf) := by
  induction l generalizing st w with
  | nil => rfl
  | cons c cs ih =>
    simp only [processPage, List.foldl_cons, recordStep, List.map_cons, minFold]
    exact ih _ _

theorem stateStep_csv_len (st : LoopState) (cs : ChangesetElem) :
    (stateStep st cs).csvLines.length = st.csvLines.length + 1 := by
  simp [stateStep]

theorem foldl_csv_len (l : List ChangesetElem) (st : LoopState) :
    (l.foldl stateStep st).csvLines.length = st.csvLines.length + l.length := by
  induction l generalizing st with
  | nil => rfl
  | cons c cs ih =>
    rw [List.foldl_cons, ih (stateStep st c), stateStep_csv_len]
    simp
    omega

theorem histSum_bump (h : List (String × Nat)) (k : String) :
    histSum (bump h k) = histSum h + 1 := by
  induction h with
  | nil => rfl
  | cons p t ih =>
    obtain ⟨k', v⟩ := p
    by_cases hk : k' = k
    · simp [bump, hk, histSum]
      omega
    · simp [bump, hk, histSum] at ih ⊢
      omega

theorem foldl_histSum (l : List ChangesetElem) (st : LoopState) :
    histSum (l.foldl stateStep st).editors = histSum st.editors + l.length := by
  induction l generalizing st with
  | nil => rfl
  | cons c cs ih =>
    rw [List.foldl_cons, ih (stateStep st c)]
    have : (stateStep st c).editors = bump st.editors (editorKey c) := rfl
    rw [this, histSum_bump]
    simp only [List.length_cons]
    omega

theorem codeContribution_spec {cs : ChangesetElem}
    (h : codeContribution cs ≠ none) :
    codeContribution cs = some (specContribution cs) := by
  cases hcc : cs.changes_count with
  | none =>
    simp only [codeContribution, specContribution, jsOr, hcc]
    decide
  | some s =>
    by_cases hs : s = ""
    · subst hs
      simp only [codeContribution, specContribution, jsOr, hcc, if_pos rfl]
      decide
    · simp only [codeContribution, specContribution, jsOr, hcc, if_neg hs] at h ⊢
      cases hp : parseIntJs s with
      | none => exact absurd hp h
      | some v => simp [hp]

theorem foldl_edits_some (l : List ChangesetElem) (st : LoopState) (e : Int)
    (hst : st.edits = some e)
    (hl : ∀ cs ∈ l, codeContribution cs ≠ none) :
    (l.foldl stateStep st).edits = some (e + specTotalEdits l) := by
  induction l generalizing st e with
  | nil => simp [specTotalEdits, hst]
  | cons c cs ih =>
    have hc : codeContribution c ≠ none := hl c (by simp)
    have hcs : codeContribution c = some (specContribution c) := codeContribution_spec hc
    have hstep : (stateStep st c).edits = some (e + specContribution c) := by
      have : (stateStep st c).edits = jsAdd st.edits (codeContribution c) := rfl
      rw [this, hst, hcs]
      rfl
    rw [List.foldl_cons, ih (stateStep st c) _ hstep (fun x hx => hl x (by simp [hx]))]
    simp [specTotalEdits]
    ring

theorem setAdd_len (l : List String) (x : String) :
    l.length ≤ (setAdd l x).length := by
  unfold setAdd
  split <;> simp

theorem foldl_daySet_mono (l : List ChangesetElem) (st : LoopState) :
    st.daySet.length ≤ (l.foldl stateStep st).daySet.length := by
  induction l generalizing st with
  | nil => exact le_refl _
  | cons c cs ih =>
    rw [List.foldl_cons]
    exact le_trans (setAdd_len st.daySet _) (ih (stateStep st c))

theorem lookupCount_bump_le (h : List (String × Nat)) (k q : String) :
    lookupCount h q ≤ lookupCount (bump h k) q := by
  induction h with
  | nil => exact Nat.zero_le _
  | cons p t ih =>
    obtain ⟨k', v⟩ := p
    by_cases hk : k' = k
    · subst hk
      simp only [bump, if_pos rfl, lookupCount]
      split <;> omega
    · simp only [bump, if_neg hk, lookupCount]
      split
      · exact le_refl _
      · exact ih

theorem foldl_lookup_mono (l : List ChangesetElem) (st : LoopState) (q : String) :
    lookupCount st.editors q ≤ lookupCount (l.foldl stateStep st).editors q := by
  induction l generalizing st with
  | nil => exact le_refl _
  | cons c cs ih =>
    rw [List.foldl_cons]
    exact le_trans (lookupCount_bump_le st.editors (editorKey c) q) (ih (stateStep st c))

/-! ## Lemmas about one loop iteration -/

theorem stepPage_404 (st : LoopState) (w : String) (fl : Bool) {p : Page}
    (h : p.status = 404) : stepPage st w fl p = .fail .wrongUsername := by
  unfold stepPage
  rw [if_pos h]

theorem stepPage_noSub_first (st : LoopState) (w : String) {p : Page}
    (hok : 200 ≤ p.status ∧ p.status ≤ 299) (hsub : p.hasSub = false) :
    stepPage st w true p = .fail .noContributions := by
  unfold stepPage
  rw [if_neg (by omega), if_neg (not_not_intro hok), if_pos (by simp [hsub])]

theorem stepPage_noSub_later (st : LoopState) (w : String) {p : Page}
    (hok : 200 ≤ p.status ∧ p.status ≤ 299) (hsub : p.hasSub = false) :
    stepPage st w false p = .finished := by
  unfold stepPage
  rw [if_neg (by omega), if_neg (not_not_intro hok), if_neg (by simp),
    if_pos (by simp [hsub])]

theorem stepPage_emptyElems (st : LoopState) (w : String) (fl : Bool) {p : Page}
    (hok : 200 ≤ p.status ∧ p.status ≤ 299) (hsub : p.hasSub = true)
    (hempty : p.elements = []) : stepPage st w fl p = .finished := by
  unfold stepPage
  rw [if_neg (by omega), if_neg (not_not_intro hok), if_neg (by simp [hsub]),
    if_neg (by simp [hsub]), if_pos (by simp [hempty])]

theorem stepPage_empty_later (st : LoopState) (w : String) {p : Page}
    (hok : 200 ≤ p.status ∧ p.status ≤ 299) (hempty : p.elements = []) :
    stepPage st w false p = .finished := by
  cases hsub : p.hasSub with
  | false => exact stepPage_noSub_later st w hok hsub
  | true => exact stepPage_emptyElems st w false hok hsub hempty

theorem stepPage_process (st : LoopState) (w : String) (fl : Bool) {p : Page}
    (hok : 200 ≤ p.status ∧ p.status ≤ 299) (hsub : p.hasSub = true)
    (hne : p.elements ≠ []) {t : DateTuple}
    (hparse : parseIso (processPage st w p.elements).2 = some t) :
    stepPage st w fl p =
      .next (processPage st w p.elements).1 (formatTuple (decOne t)) := by
  unfold stepPage
  rw [if_neg (by omega), if_neg (not_not_intro hok), if_neg (by simp [hsub]),
    if_neg (by simp [hsub]), if_neg (by simp [List.isEmpty_iff, hne])]
  dsimp only
  rw [hparse]

theorem stepPage_invalidDate (st : LoopState) (w : String) (fl : Bool) {p : Page}
    (hok : 200 ≤ p.status ∧ p.status ≤ 299) (hsub : p.hasSub = true)
    (hne : p.elements ≠ [])
    (hparse : parseIso (processPage st w p.elements).2 = none) :
    stepPage st w fl p = .fail .invalidDate := by
  unfold stepPage
  rw [if_neg (by omega), if_neg (not_not_intro hok), if_neg (by simp [hsub]),
    if_neg (by simp [hsub]), if_neg (by simp [List.isEmpty_iff, hne])]
  dsimp only
  rw [hparse]


/-! ## The window strictly decreases across a processed page -/

/-- Validity of a dataset's timestamps: every record carries a strict
ISO `created_at` with year at least 1 (every real changeset has year at
least 2004, the EPOCH). -/
def validDs (ds : List ChangesetElem) : Prop :=
  ∀ cs ∈ ds, ∃ t, parseIso (createdOf cs) = some t ∧ 1 ≤ t.y

theorem page_min_step (st : LoopState) (w : String) (fl : Bool) (p : Page)
    (hok : 200 ≤ p.status ∧ p.status ≤ 299) (hsub : p.hasSub = true)
    (hne : p.elements ≠ [])
    (hle : ∀ cs ∈ p.elements, strLe (createdOf cs) w = true)
    (hv : ∀ cs ∈ p.elements, ∃ t, parseIso (createdOf cs) = some t ∧ 1 ≤ t.y) :
    ∃ m t, m ∈ p.elements.map createdOf ∧
      (∀ c ∈ p.elements.map createdOf, strLe m c = true) ∧
      parseIso m = some t ∧
      stepPage st w fl p =
        .next (processPage st w p.elements).1 (formatTuple (decOne t)) ∧
      strLt (formatTuple (decOne t)) m = true ∧
      strLt (formatTuple (decOne t)) w = true := by
  have hLne : p.elements.map createdOf ≠ [] := by
    simp only [ne_eq, List.map_eq_nil_iff]
    exact hne
  have hall : ∀ c ∈ p.elements.map createdOf, strLe c w = true := by
    intro c hc
    obtain ⟨cs0, hcs0, rfl⟩ := List.mem_map.mp hc
    exact hle cs0 hcs0
  have hm_mem : minFold w (p.elements.map createdOf) ∈ p.elements.map createdOf :=
    minFold_mem_of_all_le w hLne hall
  obtain ⟨cs0, hcs0, hcr⟩ := List.mem_map.mp hm_mem
  obtain ⟨t, ht, hy⟩ := hv cs0 hcs0
  have htm : parseIso (minFold w (p.elements.map createdOf)) = some t := by
    rw [← hcr]
    exact ht
  have hparse : parseIso (processPage st w p.elements).2 = some t := by
    rw [processPage_snd]
    exact htm
  obtain ⟨hfmt, hvalid⟩ := parseIso_inv htm
  have hlt1 : strLt (formatTuple (decOne t)) (minFold w (p.elements.map createdOf)) = true := by
    rw [← hfmt]
    exact formatTuple_decOne_lt hvalid hy
  refine ⟨minFold w (p.elements.map createdOf), t, hm_mem,
    fun c hc => minFold_le_mem w _ hc, htm,
    stepPage_process st w fl hok hsub hne hparse, hlt1,
    strLt_of_lt_of_le hlt1 (minFold_le_start w _)⟩

/-! ## Termination of the loop over a finite dataset -/

theorem serve_status (ds : List ChangesetElem) (w : String) :
    (serve ds w).status = 200 := rfl

theorem serve_hasSub (ds : List ChangesetElem) (w : String) :
    (serve ds w).hasSub = !(serve ds w).elements.isEmpty := rfl

theorem serve_elements (ds : List ChangesetElem) (w : String) :
    (serve ds w).elements = (ds.filter (inWindow w)).take 100 := rfl

theorem runDataset_fuel_mono (ds : List ChangesetElem) :
    ∀ (f f' : Nat) (st : LoopState) (w : String) (fl : Bool), f ≤ f' →
    (runDataset ds f st w fl).isNeedsMore = false →
    runDataset ds f' st w fl = runDataset ds f st w fl := by
  intro f
  induction f with
  | zero =>
    intro f' st w fl _ h
    simp [runDataset, RunResult.isNeedsMore] at h
  | succ n ih =>
    intro f' st w fl hle h
    cases f' with
    | zero => omega
    | succ m =>
      simp only [runDataset] at h ⊢
      cases hstep : stepPage st w fl (serve ds w) with
      | fail e => simp [hstep]
      | finished => simp [hstep]
      | next st2 w2 =>
        simp only [hstep] at h ⊢
        exact ih m st2 w2 false (by omega) h

theorem filter_len_mono {α : Type} (p q : α → Bool) (l : List α)
    (h : ∀ a ∈ l, p a = true → q a = true) :
    (l.filter p).length ≤ (l.filter q).length := by
  induction l with
  | nil => exact le_refl _
  | cons x xs ih =>
    have ih' := ih (fun a ha hp => h a (by simp [ha]) hp)
    by_cases hp : p x = true
    · have hq := h x (by simp) hp
      simp [List.filter_cons, hp, hq]
      omega
    · have hp' : p x = false := Bool.eq_false_iff.mpr hp
      by_cases hq : q x = true
      · simp [List.filter_cons, hp', hq]
        omega
      · have hq' : q x = false := Bool.eq_false_iff.mpr hq
        simp [List.filter_cons, hp', hq']
        omega

theorem filter_len_lt {α : Type} (p q : α → Bool) (l : List α)
    (h : ∀ a ∈ l, p a = true → q a = true)
    {r : α} (hr : r ∈ l) (hq : q r = true) (hp : p r = false) :
    (l.filter p).length < (l.filter q).length := by
  induction l with
  | nil => cases hr
  | cons x xs ih =>
    have hmono := filter_len_mono p q xs (fun a ha hpa => h a (by simp [ha]) hpa)
    rcases List.mem_cons.mp hr with rfl | hr'
    · simp [List.filter_cons, hp, hq]
      omega
    · by_cases hpx : p x = true
      · have hqx := h x (by simp) hpx
        simp [List.filter_cons, hpx, hqx]
        have := ih (fun a ha hpa => h a (by simp [ha]) hpa) hr'
        omega
      · have hpx' : p x = false := Bool.eq_false_iff.mpr hpx
        have := ih (fun a ha hpa => h a (by simp [ha]) hpa) hr'
        by_cases hqx : q x = true
        · simp [List.filter_cons, hpx', hqx]
          omega
        · have hqx' : q x = false := Bool.eq_false_iff.mpr hqx
          simp [List.filter_cons, hpx', hqx']
          omega

theorem inWindow_mono {w w' : String} (hlt : strLt w' w = true)
    (cs : ChangesetElem) (h : inWindow w' cs = true) : inWindow w cs = true := by
  simp only [inWindow, Bool.and_eq_true] at h ⊢
  exact ⟨h.1, strLe_trans h.2 (strLe_of_lt hlt)⟩

theorem runDataset_term (ds : List ChangesetElem) (hv : validDs ds) :
    ∀ (n : Nat) (w : String) (st : LoopState) (fl : Bool),
      (ds.filter (inWindow w)).length ≤ n →
      (runDataset ds (n + 1) st w fl).isNeedsMore = false := by
  intro n
  induction n using Nat.strong_induction_on with
  | _ n ih =>
    intro w st fl hcount
    simp only [runDataset]
    by_cases hne : (serve ds w).elements = []
    · have hsub : (serve ds w).hasSub = false := by
        rw [serve_hasSub, hne]
        rfl
      have hok : 200 ≤ (serve ds w).status ∧ (serve ds w).status ≤ 299 := by
        rw [serve_status]
        omega
      cases fl with
      | true => rw [stepPage_noSub_first st w hok hsub]; rfl
      | false => rw [stepPage_noSub_later st w hok hsub]; rfl
    · have hok : 200 ≤ (serve ds w).status ∧ (serve ds w).status ≤ 299 := by
        rw [serve_status]
        omega
      have hsub : (serve ds w).hasSub = true := by
        rw [serve_hasSub]
        simp [hne]
      have hsubset : ∀ cs ∈ (serve ds w).elements, cs ∈ ds ∧ inWindow w cs = true := by
        intro cs hcs
        rw [serve_elements] at hcs
        have h1 : cs ∈ ds.filter (inWindow w) := List.take_subset _ _ hcs
        exact ⟨List.mem_of_mem_filter h1, (List.mem_filter.mp h1).2⟩
      have hle : ∀ cs ∈ (serve ds w).elements, strLe (createdOf cs) w = true := by
        intro cs hcs
        have := (hsubset cs hcs).2
        simp only [inWindow, Bool.and_eq_true] at this
        exact this.2
      have hvv : ∀ cs ∈ (serve ds w).elements,
          ∃ t, parseIso (createdOf cs) = some t ∧ 1 ≤ t.y :=
        fun cs hcs => hv cs (hsubset cs hcs).1
      obtain ⟨m, t, hm_mem, hm_le, htm, hstep, hlt1, hlt2⟩ :=
        page_min_step st w fl (serve ds w) hok hsub hne hle hvv
      rw [hstep]
      show (runDataset ds n (processPage st w (serve ds w).elements).1
        (formatTuple (decOne t)) false).isNeedsMore = false
      obtain ⟨cs0, hcs0, hcr⟩ := List.mem_map.mp hm_mem
      have hcs0ds : cs0 ∈ ds := (hsubset cs0 hcs0).1
      have hcs0w : inWindow w cs0 = true := (hsubset cs0 hcs0).2
      have hcs0w' : inWindow (formatTuple (decOne t)) cs0 = false := by
        simp only [inWindow, Bool.and_eq_false_iff]
        right
        rw [hcr]
        simp only [strLe, Bool.not_eq_false']
        exact hlt1
      have hlt_count : (ds.filter (inWindow (formatTuple (decOne t)))).length <
          (ds.filter (inWindow w)).length :=
        filter_len_lt _ _ ds (fun a _ hp => inWindow_mono hlt2 a hp) hcs0ds hcs0w hcs0w'
      have hn1 : 1 ≤ n := by omega
      have hterm := ih ((ds.filter (inWindow (formatTuple (decOne t)))).length)
        (by omega) (formatTuple (decOne t)) (processPage st w (serve ds w).elements).1
        false (le_refl _)
      have hmono := runDataset_fuel_mono ds
        ((ds.filter (inWindow (formatTuple (decOne t)))).length + 1) n
        (processPage st w (serve ds w).elements).1 (formatTuple (decOne t)) false
        (by omega) hterm
      rw [hmono]
      exact hterm

/-! ## Normal completion on a response list ending with an empty page -/

theorem runPages_done_helper (q : Page) (hqok : 200 ≤ q.status ∧ q.status ≤ 299)
    (hqe : q.elements = []) :
    ∀ (ps : List Page) (st : LoopState) (w : String) (t : DateTuple),
      parseIso w = some t →
      (∀ p ∈ ps, (200 ≤ p.status ∧ p.status ≤ 299) ∧ p.hasSub = true ∧
        p.elements ≠ [] ∧ ∀ cs ∈ p.elements, ∃ tc, parseIso (createdOf cs) = some tc) →
      ∃ stF wF, runPages st w false (ps ++ [q]) = .done stF wF ∧
        stF.csvLines.length =
          st.csvLines.length + (ps.map (fun p => p.elements.length)).sum := by
  intro ps
  induction ps with
  | nil =>
    intro st w t hw hps
    refine ⟨st, w, ?_, by simp⟩
    simp only [List.nil_append, runPages]
    rw [stepPage_empty_later st w hqok hqe]
  | cons p ps' ih =>
    intro st w t hw hps
    obtain ⟨hok, hsub, hne, hcs⟩ := hps p (by simp)
    have hparse : ∃ tm, parseIso (processPage st w p.elements).2 = some tm := by
      rw [processPage_snd]
      rcases minFold_mem w (p.elements.map createdOf) with h | h
      · rw [h]
        exact ⟨t, hw⟩
      · obtain ⟨cs0, hcs0, hcr⟩ := List.mem_map.mp h
        obtain ⟨tc, htc⟩ := hcs cs0 hcs0
        exact ⟨tc, by rw [← hcr]; exact htc⟩
    obtain ⟨tm, htm⟩ := hparse
    have hstep := stepPage_process st w false hok hsub hne htm
    obtain ⟨_, hvalid⟩ := parseIso_inv (by rw [processPage_snd] at htm; exact htm)
    have hw' : parseIso (formatTuple (decOne tm)) = some (decOne tm) :=
      parseIso_format (decOne_valid hvalid)
    obtain ⟨stF, wF, hrun, hlen⟩ := ih ((processPage st w p.elements).1)
      (formatTuple (decOne tm)) (decOne tm) hw' (fun x hx => hps x (by simp [hx]))
    refine ⟨stF, wF, ?_, ?_⟩
    · simp only [List.cons_append, runPages]
      rw [hstep]
      exact hrun
    · rw [hlen, processPage_fst, foldl_csv_len]
      simp only [List.map_cons, List.sum_cons]
      omega


/-! ## Concrete fixtures used by counterexamples and witnesses -/

/-- A well-formed upstream record: 5 changes, created by "iD". -/
def recA : ChangesetElem :=
  { id := some "1", created_at := some "2020-01-02T03:04:05Z", closed_at := none,
    changes_count := some "5", min_lon := none, min_lat := none, max_lon := none,
    max_lat := none, tags := [⟨some "created_by", some "iD"⟩] }

/-- A second record, one day earlier, 3 changes, created by JOSM. -/
def recB : ChangesetElem :=
  { id := some "2", created_at := some "2020-01-01T00:00:00Z", closed_at := none,
    changes_count := some "3", min_lon := none, min_lat := none, max_lon := none,
    max_lat := none, tags := [⟨some "created_by", some "JOSM/1.5 (12345)"⟩] }

/-- A record whose `created_at` attribute is absent. -/
def recNoCreated : ChangesetElem :=
  { id := some "3", created_at := none, closed_at := none,
    changes_count := some "2", min_lon := none, min_lat := none, max_lon := none,
    max_lat := none, tags := [] }

/-- A record whose `changes_count` is present but has no parseable integer
prefix (`parseInt("abc", 10)` is `NaN`). -/
def recBadCount : ChangesetElem :=
  { id := some "4", created_at := some "2020-01-03T00:00:00Z", closed_at := none,
    changes_count := some "abc", min_lon := none, min_lat := none, max_lon := none,
    max_lat := none, tags := [] }

/-- A record with no `tag` children at all. -/
def recNoTags : ChangesetElem :=
  { id := some "5", created_at := some "2020-01-04T00:00:00Z", closed_at := none,
    changes_count := some "1", min_lon := none, min_lat := none, max_lon := none,
    max_lat := none, tags := [] }

/-- A normal page with the single record `recA`. -/
def pageA : Page := ⟨200, true, true, [recA]⟩

/-- A normal page with the two records `recA` and `recB`. -/
def pageAB : Page := ⟨200, true, true, [recA, recB]⟩

/-- A normal empty page (`<osm/>`-style body, no changeset elements, no
`"<changeset"` substring). -/
def pageEmptyOk : Page := ⟨200, false, true, []⟩

/-- A malformed body that still contains the substring `"<changeset"` but
from which the parser recovers no changeset element (for instance the
truncated text `<osm><changeset`). -/
def pageMalformed : Page := ⟨200, true, false, []⟩

/-- A malformed body without the substring `"<changeset"` (for instance
`not xml at all`). -/
def pageMalformedNoSub : Page := ⟨200, false, false, []⟩

/-- A malformed body from which the parser still recovers a changeset
element (Chrome/WebKit's `DOMParser` keeps the partially parsed tree
next to the `parsererror` element, e.g. for
`<osm><changeset id="1" created_at="2020-01-02T03:04:05Z" changes_count="5"><tag k="created_by" v="iD"/></changeset><oops`). -/
def pageMalformedRecovered : Page := ⟨200, true, false, [recA]⟩

/-- A well-formed body that contains the substring `"<changeset"` but zero
changeset elements: `<osm><!-- <changeset --></osm>` (the substring sits
inside an XML comment). -/
def pageSubstrNoRecords : Page := ⟨200, true, true, []⟩

/-- A 404 response. -/
def page404 : Page := ⟨404, false, true, []⟩

/-- A normal page containing a record with no `created_at`. -/
def pageNoCreated : Page := ⟨200, true, true, [recNoCreated]⟩

/-- A fixed initial window bound. -/
def w0 : String := "2026-01-01T00:00:00Z"

/-! ## Claims -/

/-- Claim C2, counterexample: the claim says a record whose
`changes_count` is present but unparseable contributes 0 to `totalEdits`.
On the record with `changes_count="abc"`, `parseInt` returns `NaN` and
`edits += NaN` makes the total `NaN` (modelled `none`), not the spec-side
sum 0: the final `totalEdits` does not equal the sum with unparseable
values treated as 0. -/
theorem claim_C2_counterexample :
    (processPage initState w0 [recBadCount]).1.edits = none ∧
    ¬ (processPage initState w0 [recBadCount]).1.edits =
        some (specTotalEdits [recBadCount]) := by
  decide

/-- Claim C2, amended: for every sequence of fetched changeset records in
which every present `changes_count` attribute has a parseable integer
prefix (absent attributes default to "0"), the final `edits` equals the
sum of the records' contributions, which coincides with the spec-side
`totalEdits` (absent/unparseable treated as 0).  A present but unparseable
`changes_count` instead poisons the total to `NaN`. -/
theorem claim_C2_amended (l : List ChangesetElem) (w : String)
    (h : ∀ cs ∈ l, codeContribution cs ≠ none) :
    (processPage initState w l).1.edits = some (specTotalEdits l) := by
  rw [processPage_fst]
  rw [foldl_edits_some l initState 0 rfl h]
  simp

/-- Witness for the amended claim C2 at a concrete two-record input. -/
theorem claim_C2_amended_witness :
    (processPage initState w0 [recA, recB]).1.edits =
      some (specTotalEdits [recA, recB]) :=
  claim_C2_amended [recA, recB] w0 (by decide)

/-- Claim C7: the histogram key of every record is the `editorKey`
derived from the `created_by` tag value by taking the substring before
the first '/' and then before the first space; the tag value
"JOSM/1.5 (12345)" maps to key "JOSM", and a record with no `created_by`
tag maps to key "unknown". -/
theorem claim_C7 :
    (∀ (st : LoopState) (cs : ChangesetElem),
      (stateStep st cs).editors = bump st.editors (editorKey cs)) ∧
    (∀ (cs : ChangesetElem) (tg : TagElem) (v : String),
      cs.tags.find? (fun t => t.k == some "created_by") = some tg →
      tg.v = some v → v ≠ "" →
      editorKey cs = splitHead (splitHead v '/') ' ') ∧
    (∀ (cs : ChangesetElem) (tg : TagElem),
      cs.tags.find? (fun t => t.k == some "created_by") = some tg →
      tg.v = some "JOSM/1.5 (12345)" →
      editorKey cs = "JOSM") ∧
    (∀ cs : ChangesetElem,
      cs.tags.find? (fun t => t.k == some "created_by") = none →
      editorKey cs = "unknown") := by
  refine ⟨fun st cs => rfl, ?_, ?_, ?_⟩
  · intro cs tg v hf hv hne
    unfold editorKey
    rw [hf]
    show splitHead (splitHead (jsOr tg.v "unknown") '/') ' ' = _
    rw [hv]
    show splitHead (splitHead (if v = "" then "unknown" else v) '/') ' ' = _
    rw [if_neg hne]
  · intro cs tg hf hv
    unfold editorKey
    rw [hf]
    show splitHead (splitHead (jsOr tg.v "unknown") '/') ' ' = _
    rw [hv]
    decide
  · intro cs hf
    unfold editorKey
    rw [hf]
    decide

/-- Witness for claim C7 at the concrete JOSM record and the record
without tags. -/
theorem claim_C7_witness :
    editorKey recB = "JOSM" ∧ editorKey recNoTags = "unknown" :=
  ⟨claim_C7.2.2.1 recB ⟨some "created_by", some "JOSM/1.5 (12345)"⟩
      (by decide) (by decide),
   claim_C7.2.2.2 recNoTags (by decide)⟩

/-- Claim C8: a 404 on the very first page makes the fetch fail with the
"Wrong username" error (UnknownUser), never with the no-contributions
error — the status check precedes the empty-history check, and no further
page is fetched. -/
theorem claim_C8 (st : LoopState) (w : String) (rest : List Page) (p : Page)
    (h : p.status = 404) :
    runPages st w true (p :: rest) = .error .wrongUsername := by
  simp only [runPages]
  rw [stepPage_404 st w true h]

/-- Witness for claim C8 at a concrete 404 response. -/
theorem claim_C8_witness :
    runPages initState w0 true [page404] = .error .wrongUsername :=
  claim_C8 initState w0 [] page404 (by decide)

/-- Claim C9: on a page containing a record whose `created_at` is absent,
the empty string becomes the batch minimum under string comparison, the
window update fails on the invalid date (the `RangeError` of
`toISOString`), and the fetch aborts with that error — it neither
continues to a next page nor completes as Done. -/
theorem claim_C9 (st : LoopState) (w : String) (fl : Bool) (rest : List Page)
    (p : Page) (cs : ChangesetElem)
    (h1 : 200 ≤ p.status) (h2 : p.status ≤ 299) (hsub : p.hasSub = true)
    (hcs : cs ∈ p.elements) (hmiss : cs.created_at = none) :
    (processPage st w p.elements).2 = "" ∧
    runPages st w fl (p :: rest) = .error .invalidDate := by
  have hcr : createdOf cs = "" := by simp [createdOf, jsOr, hmiss]
  have hmem : "" ∈ p.elements.map createdOf := by
    rw [← hcr]
    exact List.mem_map_of_mem _ hcs
  have hmin : (processPage st w p.elements).2 = "" := by
    rw [processPage_snd]
    exact minFold_eq_empty w hmem
  refine ⟨hmin, ?_⟩
  have hne : p.elements ≠ [] := by
    intro he
    rw [he] at hcs
    cases hcs
  simp only [runPages]
  rw [stepPage_invalidDate st w fl ⟨h1, h2⟩ hsub hne (by rw [hmin]; rfl)]

/-- Witness for claim C9 at a concrete page with a `created_at`-less
record. -/
theorem claim_C9_witness :
    (processPage initState w0 pageNoCreated.elements).2 = "" ∧
    runPages initState w0 true [pageNoCreated] = .error .invalidDate :=
  claim_C9 initState w0 true [] pageNoCreated recNoCreated (by decide)
    (by decide) (by decide) (by decide) (by decide)

/-- Claim C10: in `POST /api/user`, with a valid username and edits
value, the stats row is upserted before the CSV export file is written:
when the file write fails the row upsert has already happened and is not
rolled back (files unchanged, stats updated), and on success the file is
written against the already-updated state. -/
theorem claim_C10 (st : ServerState) (u : String) (e : Int) (csv : String)
    (hu : u ≠ "") :
    postApiUser st u (some e) csv true false =
      ({ stats := upsertStat st.stats u e, files := st.files }, .writeFailed) ∧
    postApiUser st u (some e) csv true true =
      ({ stats := upsertStat st.stats u e,
         files := writeFileModel st.files (u ++ ".csv") csv }, .success) := by
  constructor
  · unfold postApiUser
    rw [if_neg hu]
    rfl
  · unfold postApiUser
    rw [if_neg hu]
    rfl

/-- Witness for claim C10 at a concrete request against the empty server
state. -/
theorem claim_C10_witness :
    postApiUser ⟨[], []⟩ "alice" (some 8) "csvdata" true false =
      ({ stats := upsertStat [] "alice" 8, files := [] }, .writeFailed) ∧
    postApiUser ⟨[], []⟩ "alice" (some 8) "csvdata" true true =
      ({ stats := upsertStat [] "alice" 8,
         files := writeFileModel [] ("alice" ++ ".csv") "csvdata" }, .success) :=
  claim_C10 ⟨[], []⟩ "alice" 8 "csvdata" (by decide)


/-- Claim C1, counterexample: the claim says a page with a malformed body
fails the fetch with UpstreamContractViolation.  On a run whose second
response is malformed (with the substring `"<changeset"` present but no
changeset element recovered), the fetch does not fail at all: it
completes as Done.  The code has no parse-error check — `DOMParser` never
throws — so no UpstreamContractViolation failure exists. -/
theorem claim_C1_counterexample :
    pageMalformed.wellFormed = false ∧
    (runPages initState w0 true [pageA, pageMalformed]).isDone = true := by
  decide

/-- Claim C1, amended: a malformed page body never makes the user-fetch
fail with an UpstreamContractViolation — the code has no parse-error
failure at all; what happens is decided only by the substring test and
by the changeset elements the parser recovers.  If the malformed text
lacks `"<changeset"`, a first page fails with the no-contributions error
and a later page ends the loop with Done, in both cases without a fetch
for a further page; if it contains `"<changeset"` but zero changeset
elements are recovered, the loop likewise ends with Done without a
further fetch; and if the parser recovers changeset elements (as
Chrome/WebKit's `DOMParser` can, keeping the partial tree), the loop
folds them into the aggregate and issues a fetch for a further page. -/
theorem claim_C1_amended :
    (∀ (st : LoopState) (w : String) (rest : List Page) (p : Page),
      200 ≤ p.status → p.status ≤ 299 → p.wellFormed = false → p.hasSub = false →
      runPages st w true (p :: rest) = .error .noContributions) ∧
    (∀ (st : LoopState) (w : String) (rest : List Page) (p : Page),
      200 ≤ p.status → p.status ≤ 299 → p.wellFormed = false → p.hasSub = false →
      runPages st w false (p :: rest) = .done st w) ∧
    (∀ (st : LoopState) (w : String) (rest : List Page) (p : Page) (fl : Bool),
      200 ≤ p.status → p.status ≤ 299 → p.wellFormed = false → p.hasSub = true →
      p.elements = [] → runPages st w fl (p :: rest) = .done st w) ∧
    (∀ (st : LoopState) (w : String) (fl : Bool) (p : Page),
      200 ≤ p.status → p.status ≤ 299 → p.wellFormed = false → p.hasSub = true →
      p.elements ≠ [] →
      (∀ cs ∈ p.elements, ∃ tc, parseIso (createdOf cs) = some tc) →
      (∃ tw, parseIso w = some tw) →
      ∃ t, parseIso (processPage st w p.elements).2 = some t ∧
        (∀ rest, runPages st w fl (p :: rest) =
          runPages (processPage st w p.elements).1
            (formatTuple (decOne t)) false rest) ∧
        (runPages st w fl [p]).isNeedsMore = true) := by
  refine ⟨?_, ?_, ?_, ?_⟩
  · intro st w rest p h1 h2 _ hsub
    simp only [runPages]
    rw [stepPage_noSub_first st w ⟨h1, h2⟩ hsub]
  · intro st w rest p h1 h2 _ hsub
    simp only [runPages]
    rw [stepPage_noSub_later st w ⟨h1, h2⟩ hsub]
  · intro st w rest p fl h1 h2 _ hsub he
    simp only [runPages]
    rw [stepPage_emptyElems st w fl ⟨h1, h2⟩ hsub he]
  · intro st w fl p h1 h2 _ hsub hne hcs hw
    obtain ⟨tw, hw0⟩ := hw
    have hparse : ∃ tm, parseIso (processPage st w p.elements).2 = some tm := by
      rw [processPage_snd]
      rcases minFold_mem w (p.elements.map createdOf) with h | h
      · rw [h]
        exact ⟨tw, hw0⟩
      · obtain ⟨cs0, hcs0, hcr⟩ := List.mem_map.mp h
        obtain ⟨tc, htc⟩ := hcs cs0 hcs0
        exact ⟨tc, by rw [← hcr]; exact htc⟩
    obtain ⟨tm, htm⟩ := hparse
    have hstep := stepPage_process st w fl ⟨h1, h2⟩ hsub hne htm
    refine ⟨tm, htm, ?_, ?_⟩
    · intro rest
      simp only [runPages]
      rw [hstep]
    · simp only [runPages]
      rw [hstep]
      rfl

/-- Witness for the amended claim C1 at concrete malformed pages,
including a malformed page with a recovered record, on which the loop
continues and asks for a further page. -/
theorem claim_C1_amended_witness :
    runPages initState w0 true [pageMalformedNoSub] = .error .noContributions ∧
    runPages initState w0 false [pageMalformedNoSub] = .done initState w0 ∧
    runPages initState w0 true [pageMalformed] = .done initState w0 ∧
    (∃ t, parseIso (processPage initState w0 pageMalformedRecovered.elements).2
        = some t ∧
      (∀ rest, runPages initState w0 true (pageMalformedRecovered :: rest) =
        runPages (processPage initState w0 pageMalformedRecovered.elements).1
          (formatTuple (decOne t)) false rest) ∧
      (runPages initState w0 true [pageMalformedRecovered]).isNeedsMore = true) :=
  ⟨claim_C1_amended.1 initState w0 [] pageMalformedNoSub (by decide) (by decide)
      (by decide) (by decide),
   claim_C1_amended.2.1 initState w0 [] pageMalformedNoSub (by decide) (by decide)
      (by decide) (by decide),
   claim_C1_amended.2.2.1 initState w0 [] pageMalformed true (by decide) (by decide)
      (by decide) (by decide) (by decide),
   claim_C1_amended.2.2.2 initState w0 true pageMalformedRecovered (by decide)
      (by decide) (by decide) (by decide) (by decide)
      (by
        intro cs hcs
        simp only [pageMalformedRecovered, List.mem_singleton] at hcs
        subst hcs
        exact ⟨⟨2020, 1, 2, 3, 4, 5⟩, by decide⟩)
      ⟨⟨2026, 1, 1, 0, 0, 0⟩, by decide⟩⟩

/-- Claim C3, counterexample: the claim says a first page with zero
changeset records always fails with NoContributions.  A well-formed first
page whose body contains the substring `"<changeset"` (inside an XML
comment, e.g. `<osm><!-- <changeset --></osm>`) but zero changeset
elements instead completes as Done with the empty aggregate. -/
theorem claim_C3_counterexample :
    pageSubstrNoRecords.elements = [] ∧ pageSubstrNoRecords.wellFormed = true ∧
    runPages initState w0 true [pageSubstrNoRecords] = .done initState w0 := by
  decide

/-- Claim C3, amended: the fetch fails with NoContributions exactly when
the first page's body lacks the substring `"<changeset"` (the code's
proxy for "zero records"); a later page with zero changeset records is
never treated as this error — it terminates the loop normally with
Done. -/
theorem claim_C3_amended :
    (∀ (st : LoopState) (w : String) (rest : List Page) (p : Page),
      200 ≤ p.status → p.status ≤ 299 → p.hasSub = false →
      runPages st w true (p :: rest) = .error .noContributions) ∧
    (∀ (st : LoopState) (w : String) (rest : List Page) (p : Page),
      200 ≤ p.status → p.status ≤ 299 → p.elements = [] →
      runPages st w false (p :: rest) = .done st w) := by
  constructor
  · intro st w rest p h1 h2 hsub
    simp only [runPages]
    rw [stepPage_noSub_first st w ⟨h1, h2⟩ hsub]
  · intro st w rest p h1 h2 he
    simp only [runPages]
    rw [stepPage_empty_later st w ⟨h1, h2⟩ he]

/-- Witness for the amended claim C3 at concrete pages. -/
theorem claim_C3_amended_witness :
    runPages initState w0 true [pageEmptyOk] = .error .noContributions ∧
    runPages initState w0 false [pageSubstrNoRecords] = .done initState w0 :=
  ⟨claim_C3_amended.1 initState w0 [] pageEmptyOk (by decide) (by decide) (by decide),
   claim_C3_amended.2 initState w0 [] pageSubstrNoRecords (by decide) (by decide)
      (by decide)⟩

/-- Claim C4: in every iteration that processes at least one record (all
records within the window and with well-formed timestamps), the new
window bound is the rendering of the batch minimum `created_at`
decremented by one second, which is strictly below both the batch
minimum and the previous bound; and the loop over any finite upstream
dataset with well-formed timestamps terminates — fuel equal to the
number of dataset records inside the current window plus one is never
exhausted. -/
theorem claim_C4 :
    (∀ (st : LoopState) (w : String) (fl : Bool) (p : Page),
      200 ≤ p.status → p.status ≤ 299 → p.hasSub = true → p.elements ≠ [] →
      (∀ cs ∈ p.elements, strLe (createdOf cs) w = true) →
      (∀ cs ∈ p.elements, ∃ t, parseIso (createdOf cs) = some t ∧ 1 ≤ t.y) →
      ∃ m t, m ∈ p.elements.map createdOf ∧
        (∀ c ∈ p.elements.map createdOf, strLe m c = true) ∧
        parseIso m = some t ∧
        stepPage st w fl p =
          .next (processPage st w p.elements).1 (formatTuple (decOne t)) ∧
        strLt (formatTuple (decOne t)) m = true ∧
        strLt (formatTuple (decOne t)) w = true) ∧
    (∀ ds : List ChangesetElem, validDs ds →
      ∀ (w : String) (st : LoopState) (fl : Bool),
      (runDataset ds ((ds.filter (inWindow w)).length + 1) st w fl).isNeedsMore
        = false) :=
  ⟨fun st w fl p h1 h2 hsub hne hle hv =>
      page_min_step st w fl p ⟨h1, h2⟩ hsub hne hle hv,
   fun ds hv w st fl => runDataset_term ds hv _ w st fl (le_refl _)⟩

/-- Witness for claim C4 at a concrete page and a concrete one-record
dataset. -/
theorem claim_C4_witness :
    (∃ m t, m ∈ pageA.elements.map createdOf ∧
      (∀ c ∈ pageA.elements.map createdOf, strLe m c = true) ∧
      parseIso m = some t ∧
      stepPage initState w0 true pageA =
        .next (processPage initState w0 pageA.elements).1 (formatTuple (decOne t)) ∧
      strLt (formatTuple (decOne t)) m = true ∧
      strLt (formatTuple (decOne t)) w0 = true) ∧
    (runDataset [recA] (([recA].filter (inWindow w0)).length + 1)
      initState w0 true).isNeedsMore = false := by
  constructor
  · exact claim_C4.1 initState w0 true pageA (by decide) (by decide) (by decide)
      (by decide) (by decide)
      (by
        intro cs hcs
        simp only [pageA, List.mem_singleton] at hcs
        subst hcs
        exact ⟨⟨2020, 1, 2, 3, 4, 5⟩, by decide, by decide⟩)
  · exact claim_C4.2 [recA]
      (by
        intro cs hcs
        simp only [List.mem_singleton] at hcs
        subst hcs
        exact ⟨⟨2020, 1, 2, 3, 4, 5⟩, by decide, by decide⟩)
      w0 initState true

/-- Claim C5: for a response sequence of one or more non-empty
well-formed pages followed by an empty page, the loop terminates
normally with Done and the number of export rows (CSV lines beyond the
header) equals the total record count across the non-empty pages. -/
theorem claim_C5 (ps : List Page) (q : Page) (w : String) (t0 : DateTuple)
    (hne : ps ≠ [])
    (hps : ∀ p ∈ ps, (200 ≤ p.status ∧ p.status ≤ 299) ∧ p.hasSub = true ∧
      p.elements ≠ [] ∧ ∀ cs ∈ p.elements, ∃ tc, parseIso (createdOf cs) = some tc)
    (hq : 200 ≤ q.status ∧ q.status ≤ 299) (hqe : q.elements = [])
    (hw : parseIso w = some t0) :
    ∃ stF wF, runPages initState w true (ps ++ [q]) = .done stF wF ∧
      stF.csvLines.length = 1 + (ps.map (fun p => p.elements.length)).sum := by
  cases ps with
  | nil => exact absurd rfl hne
  | cons p ps' =>
    obtain ⟨hok, hsub, hpne, hcs⟩ := hps p (by simp)
    have hparse : ∃ tm, parseIso (processPage initState w p.elements).2 = some tm := by
      rw [processPage_snd]
      rcases minFold_mem w (p.elements.map createdOf) with h | h
      · rw [h]
        exact ⟨t0, hw⟩
      · obtain ⟨cs0, hcs0, hcr⟩ := List.mem_map.mp h
        obtain ⟨tc, htc⟩ := hcs cs0 hcs0
        exact ⟨tc, by rw [← hcr]; exact htc⟩
    obtain ⟨tm, htm⟩ := hparse
    have hstep := stepPage_process initState w true hok hsub hpne htm
    obtain ⟨_, hvalid⟩ := parseIso_inv (by rw [processPage_snd] at htm; exact htm)
    have hw' : parseIso (formatTuple (decOne tm)) = some (decOne tm) :=
      parseIso_format (decOne_valid hvalid)
    obtain ⟨stF, wF, hrun, hlen⟩ := runPages_done_helper q hq hqe ps'
      ((processPage initState w p.elements).1) (formatTuple (decOne tm))
      (decOne tm) hw' (fun x hx => hps x (by simp [hx]))
    refine ⟨stF, wF, ?_, ?_⟩
    · simp only [List.cons_append, runPages]
      rw [hstep]
      exact hrun
    · rw [hlen, processPage_fst, foldl_csv_len]
      have hinit : initState.csvLines.length = 1 := rfl
      simp only [List.map_cons, List.sum_cons, hinit]
      omega

/-- Witness for claim C5 at a concrete two-record page followed by an
empty page. -/
theorem claim_C5_witness :
    ∃ stF wF, runPages initState w0 true ([pageAB] ++ [pageEmptyOk]) = .done stF wF ∧
      stF.csvLines.length = 1 + ([pageAB].map (fun p => p.elements.length)).sum := by
  refine claim_C5 [pageAB] pageEmptyOk w0 ⟨2026, 1, 1, 0, 0, 0⟩ (by decide) ?_
    (by decide) (by decide) (by decide)
  intro p hp
  simp only [List.mem_singleton] at hp
  subst hp
  refine ⟨by decide, by decide, by decide, ?_⟩
  intro cs hcs
  simp only [pageAB, List.mem_cons, List.mem_singleton] at hcs
  rcases hcs with rfl | rfl | h
  · exact ⟨⟨2020, 1, 2, 3, 4, 5⟩, by decide⟩
  · exact ⟨⟨2020, 1, 1, 0, 0, 0⟩, by decide⟩
  · cases h

/-- The spec-side total is non-negative whenever every record's
contribution parses to a non-negative integer. -/
theorem specTotalEdits_nonneg (l : List ChangesetElem)
    (h : ∀ cs ∈ l, ∃ c, codeContribution cs = some c ∧ 0 ≤ c) :
    0 ≤ specTotalEdits l := by
  induction l with
  | nil => simp [specTotalEdits]
  | cons c cs ih =>
    obtain ⟨cv, hcv, hge⟩ := h c (by simp)
    have h2 := @codeContribution_spec c (by simp [hcv])
    rw [hcv] at h2
    have hspec : specContribution c = cv := (Option.some.inj h2).symm
    have ih' := ih (fun x hx => h x (by simp [hx]))
    simp only [specTotalEdits, List.map_cons, List.sum_cons] at ih' ⊢
    rw [hspec]
    omega

/-- Claim C6: after any number of records have been folded in, the
histogram values sum to the number of records processed, the CSV buffer
holds the header plus one row per record, `totalEdits` is a non-negative
integer (given records whose `changes_count` parses non-negative) and
`activeDays` is a natural number; and folding one more record only
increases every counter. -/
theorem claim_C6 (l : List ChangesetElem) (k : Nat)
    (h : ∀ cs ∈ l, ∃ c, codeContribution cs = some c ∧ 0 ≤ c) :
    histSum ((l.take k).foldl stateStep initState).editors = (l.take k).length ∧
    ((l.take k).foldl stateStep initState).csvLines.length = 1 + (l.take k).length ∧
    (∃ n, ((l.take k).foldl stateStep initState).edits = some n ∧ 0 ≤ n) ∧
    (∃ n n', ((l.take k).foldl stateStep initState).edits = some n ∧
      ((l.take (k + 1)).foldl stateStep initState).edits = some n' ∧ n ≤ n') ∧
    ((l.take k).foldl stateStep initState).daySet.length ≤
      ((l.take (k + 1)).foldl stateStep initState).daySet.length ∧
    (∀ q, lookupCount ((l.take k).foldl stateStep initState).editors q ≤
      lookupCount ((l.take (k + 1)).foldl stateStep initState).editors q) ∧
    ((l.take k).foldl stateStep initState).csvLines.length ≤
      ((l.take (k + 1)).foldl stateStep initState).csvLines.length := by
  have hsub : ∀ n : Nat, ∀ cs ∈ l.take n, ∃ c, codeContribution cs = some c ∧ 0 ≤ c :=
    fun n cs hcs => h cs (List.take_subset n l hcs)
  have hne : ∀ n : Nat, ∀ cs ∈ l.take n, codeContribution cs ≠ none := by
    intro n cs hcs
    obtain ⟨c, hc, _⟩ := hsub n cs hcs
    simp [hc]
  have hedits : ∀ n : Nat, ((l.take n).foldl stateStep initState).edits
      = some (specTotalEdits (l.take n)) := by
    intro n
    rw [foldl_edits_some (l.take n) initState 0 rfl (hne n)]
    simp
  have hsplit : l.take (k + 1) = l.take k ++ (l.drop k).take 1 := List.take_add l k 1
  have hEsub : ∀ cs ∈ (l.drop k).take 1, ∃ c, codeContribution cs = some c ∧ 0 ≤ c :=
    fun cs hcs => h cs (List.drop_subset k l (List.take_subset 1 _ hcs))
  refine ⟨?_, ?_, ?_, ?_, ?_, ?_, ?_⟩
  · rw [foldl_histSum]
    have h0 : histSum initState.editors = 0 := rfl
    omega
  · rw [foldl_csv_len]
    have h0 : initState.csvLines.length = 1 := rfl
    omega
  · exact ⟨_, hedits k, specTotalEdits_nonneg _ (hsub k)⟩
  · refine ⟨specTotalEdits (l.take k), specTotalEdits (l.take (k + 1)),
      hedits k, hedits (k + 1), ?_⟩
    rw [hsplit]
    have hsum : specTotalEdits (l.take k ++ (l.drop k).take 1)
        = specTotalEdits (l.take k) + specTotalEdits ((l.drop k).take 1) := by
      simp [specTotalEdits]
    rw [hsum]
    have := specTotalEdits_nonneg _ hEsub
    omega
  · rw [hsplit, List.foldl_append]
    exact foldl_daySet_mono _ _
  · intro q
    rw [hsplit, List.foldl_append]
    exact foldl_lookup_mono _ _ q
  · rw [foldl_csv_len, foldl_csv_len]
    have hlen : (l.take k).length ≤ (l.take (k + 1)).length := by
      simp only [List.length_take]
      omega
    omega

/-- Witness for claim C6 at a concrete two-record prefix. -/
theorem claim_C6_witness :
    histSum (([recA, recB].take 1).foldl stateStep initState).editors
      = ([recA, recB].take 1).length ∧
    (([recA, recB].take 1).foldl stateStep initState).csvLines.length
      = 1 + ([recA, recB].take 1).length ∧
    (∃ n, (([recA, recB].take 1).foldl stateStep initState).edits = some n ∧ 0 ≤ n) ∧
    (∃ n n', (([recA, recB].take 1).foldl stateStep initState).edits = some n ∧
      (([recA, recB].take 2).foldl stateStep initState).edits = some n' ∧ n ≤ n') ∧
    (([recA, recB].take 1).foldl stateStep initState).daySet.length ≤
      (([recA, recB].take 2).foldl stateStep initState).daySet.length ∧
    (∀ q, lookupCount (([recA, recB].take 1).foldl stateStep initState).editors q ≤
      lookupCount (([recA, recB].take 2).foldl stateStep initState).editors q) ∧
    (([recA, recB].take 1).foldl stateStep initState).csvLines.length ≤
      (([recA, recB].take 2).foldl stateStep initState).csvLines.length := by
  refine claim_C6 [recA, recB] 1 ?_
  intro cs hcs
  simp only [List.mem_cons, List.mem_singleton] at hcs
  rcases hcs with rfl | rfl | hcs
  · exact ⟨5, by decide, by decide⟩
  · exact ⟨3, by decide, by decide⟩
  · cases hcs

end Osm
